import Mathlib

/-!
Verification of the news-aggregation pipeline
(`tech_news_ai_with_facts.py`, `tech_news_ai.py`, `baidu_translator.py`).

The Python code is shallowly embedded: Python `str` becomes `List Char`,
Python dicts with a fixed key set become structures (a key that is absent in
some dicts becomes an `Option` field, `none` meaning "key absent"),
`datetime` values become `Int` timestamps, and external effects
(HTTP transport, `hashlib.md5`, `BeautifulSoup.get_text`, the translation
and analysis services) become explicit function/outcome parameters, so that
every definition is executable.
-/

namespace NewsPipeline

/-- Python `str` is modelled as a list of characters. -/
abbrev Str := List Char

/-- Python `str.lower()` on one character (ASCII letters; used for keyword
matching on mostly-ASCII/Chinese text, where Chinese characters are unchanged). -/
def lowerChar (c : Char) : Char :=
  if 'A' ≤ c ∧ c ≤ 'Z' then Char.ofNat (c.toNat + 32) else c

/-- Python `str.lower()`. -/
def lower (s : Str) : Str := s.map lowerChar

/-- Whether `p` is a prefix of `s` (Boolean helper for the substring test). -/
def isPrefixB : Str → Str → Bool
  | [], _ => true
  | _ :: _, [] => false
  | a :: as, b :: bs => a == b && isPrefixB as bs

/-- Python `needle in hay` (substring containment). -/
def substrIn (needle : Str) : Str → Bool
  | [] => needle.isEmpty
  | c :: rest => isPrefixB needle (c :: rest) || substrIn needle rest

/-- The ASCII whitespace characters stripped by Python `str.strip()`. -/
def isPySpace (c : Char) : Bool :=
  c == ' ' || c == '\t' || c == '\n' || c == '\r' ||
    c == Char.ofNat 11 || c == Char.ofNat 12

/-- Python `str.strip()`. -/
def pyStrip (s : Str) : Str :=
  ((s.dropWhile isPySpace).reverse.dropWhile isPySpace).reverse

/-- Python `str.split('\n')`: split on newline, keeping empty pieces. -/
def splitNl : Str → List Str
  | [] => [[]]
  | c :: rest =>
    match splitNl rest with
    | [] => [[c]]
    | p :: ps => if c = '\n' then [] :: p :: ps else (c :: p) :: ps

/-! ## Data model

`Article` is the normalized record built by every fetcher of
`tech_news_ai_with_facts.py`.  Keys that only some fetchers write
(`summary`, `points`, `comments`, the translated fields) are `Option`. -/

/-- A source-registry descriptor (the dicts in `ai_news_sources` /
`fact_news_sources`); `category` and `lang` are read with `.get` defaults. -/
structure Source where
  name : Str
  category : Option Str
  lang : Option Str
  deriving DecidableEq, Repr

/-- One parsed feed entry (`feedparser` output): `published` / `updated` are
the parsed timestamps when present. -/
structure RssEntry where
  title : Str
  summary : Str
  link : Str
  published : Option Int
  updated : Option Int
  deriving DecidableEq, Repr

/-- One hit of the Hacker News search API (`hn.algolia.com`); every field is
read with `.get` in the source, hence `Option`. -/
structure HnHit where
  objectID : Str
  title : Option Str
  url : Option Str
  points : Option Nat
  num_comments : Option Nat
  created_at_i : Option Int
  deriving DecidableEq, Repr

/-- The normalized article dict of `tech_news_ai_with_facts.py`. -/
structure Article where
  id : Str
  title : Str
  link : Str
  source : Str
  summary : Option Str
  category : Str
  lang : Str
  importance : Nat
  time : Int
  type : Str
  points : Option Nat
  comments : Option Nat
  title_translated : Option Str
  summary_translated : Option Str
  deriving DecidableEq, Repr

/-- The run's accumulating article collections
(`self.all_articles`, `self.ai_articles`, `self.fact_articles`). -/
structure RunState where
  all_articles : List Article
  ai_articles : List Article
  fact_articles : List Article
  deriving DecidableEq, Repr

/-- External collaborators and clock of one run: `hash` is
`hashlib.md5(...).hexdigest()`, `getText` is `BeautifulSoup(...).get_text()`,
`translate` is `baidu_translate` (total, see below), `now` is
`datetime.now()` and `cutoff` is `self.forty_eight_hours_ago`. -/
structure Ctx where
  hash : Str → Str
  getText : Str → Str
  translate : Str → Str → Str × Str
  now : Int
  cutoff : Int

/-! ## `EnhancedNewsAnalyzer.baidu_translate` (lines 99-153)

The environment/network outcome is an explicit parameter; the function
itself is total on every outcome. -/

/-- Outcome of the Baidu translation attempt: missing keys, an API response
without `trans_result`, a raised exception, or a translated string `dst`. -/
inductive BaiduOutcome where
  | noKeys
  | apiError
  | exn
  | ok (dst : Str)
  deriving DecidableEq, Repr

/-- Whether the outcome is one of the failure modes. -/
def BaiduOutcome.isFailure : BaiduOutcome → Bool
  | .ok _ => false
  | _ => true

/-- `baidu_translate(title, summary)`: on success, split `dst` on a newline
into title/summary; on any failure return the original text with the
`(未翻译)` marker appended (`"(未翻译)"` alone for an empty summary). -/
def baidu_translate (o : BaiduOutcome) (title summary : Str) : Str × Str :=
  match o with
  | .ok dst =>
    let parts := splitNl dst
    (pyStrip (parts.headD []),
     match parts with
     | _ :: p2 :: _ => pyStrip p2
     | _ => [])
  | _ =>
    (title ++ (" (未翻译)".data),
     if summary.isEmpty then ("(未翻译)".data) else summary ++ (" (未翻译)".data))

/-! ## `EnhancedNewsAnalyzer.fetch_rss` (lines 534-682, entry loop 582-652)

The retry/transport wrapper is outside the embedding; the loop over
`feed.entries[:20]` is modelled exactly: per-call `seen_links` dedup,
48-hour window filter with `datetime.now()` substituted for an unparseable
publish time, empty-title/link skip, summary cleanup, translation for
English sources, AI-keyword routing for `article_type == 'ai'` and the
(full-hash versus 8-character-id) duplicate check for `'fact'`. -/

/-- The AI keyword list of the fetch-time relevance check (lines 637-640).
The keywords are matched against the lower-cased text exactly as written
(so the ones containing upper-case letters can never match). -/
def ai_keywords : List Str :=
  (["ai", "artificial intelligence", "machine learning",
    "deep learning", "neural network", "llm", "gpt", "transformer",
    "人工智能", "机器学习", "深度学习", "大模型", "生成式AI", "计算机视觉", "图像生成", "训练",
    "AIGC", "Diffusion模型", "MoE模型", "RLHF"] : List String).map String.data

/-- The relevance classifier of `fetch_rss`:
`any(keyword in f"{title} {summary}".lower() for keyword in ai_keywords)`. -/
def isAiRelated (title summary : Str) : Bool :=
  let content := lower (title ++ ' ' :: summary)
  ai_keywords.any fun kw => substrIn kw content

/-- `pub_time` of one entry: `published_parsed`, else `updated_parsed`,
else `datetime.now()` (the synthesized fallback). -/
def rssPubTime (ctx : Ctx) (e : RssEntry) : Int :=
  ((e.published).orElse fun _ => e.updated).getD ctx.now

/-- The cleaned summary: if non-empty after strip, html-stripped and cut to
250 characters. -/
def rssCleanSummary (ctx : Ctx) (e : RssEntry) : Str :=
  let s0 := pyStrip e.summary
  if s0.isEmpty then s0 else (ctx.getText s0).take 250

/-- The article dict built at lines 617-633 (importance 6; the ai branch
later overwrites it with 8).  The local `article_importance = 4` assigned for
a missing publish time at line 595 is never read by the source, so it does
not appear here. -/
def mkRssArticle (ctx : Ctx) (src : Source) (atype : Str) (e : RssEntry) : Article :=
  let title := pyStrip e.title
  let link := pyStrip e.link
  let summary := rssCleanSummary ctx e
  let lang := src.lang.getD ("en".data)
  let transl := if lang = ("en".data) then some (ctx.translate title summary) else none
  { id := (ctx.hash link).take 8
    title := title.take 150
    link := link
    source := src.name
    summary := some (if 250 < summary.length then summary.take 250 ++ ("...".data) else summary)
    category := src.category.getD ("general".data)
    lang := lang
    importance := 6
    time := rssPubTime ctx e
    type := atype
    points := none
    comments := none
    title_translated := transl.map Prod.fst
    summary_translated := transl.map Prod.snd }

/-- The body of the `for entry in feed.entries[:20]` loop for one entry,
acting on `(state, articles_added, seen_links)`. -/
def processRssEntry (ctx : Ctx) (src : Source) (atype : Str) (e : RssEntry) :
    RunState × Nat × List Str → RunState × Nat × List Str :=
  fun (st, added, seen) =>
    if rssPubTime ctx e < ctx.cutoff then (st, added, seen)
    else if (pyStrip e.title).isEmpty || (pyStrip e.link).isEmpty then (st, added, seen)
    else
      let link_hash := ctx.hash (pyStrip e.link)
      if link_hash ∈ seen then (st, added, seen)
      else
        let seen' := link_hash :: seen
        let article := mkRssArticle ctx src atype e
        if atype = ("ai".data) then
          if isAiRelated (pyStrip e.title) (rssCleanSummary ctx e) then
            let article := { article with importance := 8 }
            ({ st with all_articles := st.all_articles ++ [article],
                       ai_articles := st.ai_articles ++ [article] },
             added + 1, seen')
          else (st, added, seen')
        else
          if link_hash ∈ st.fact_articles.map (·.id) then (st, added, seen')
          else
            ({ st with all_articles := st.all_articles ++ [article],
                       fact_articles := st.fact_articles ++ [article] },
             added + 1, seen')

/-- The entry loop with the `articles_added >= 5` break. -/
def fetchRssEntries (ctx : Ctx) (src : Source) (atype : Str) :
    List RssEntry → RunState × Nat × List Str → RunState × Nat × List Str
  | [], acc => acc
  | e :: rest, acc =>
    if 5 ≤ acc.2.1 then acc
    else fetchRssEntries ctx src atype rest (processRssEntry ctx src atype e acc)

/-- `fetch_rss(source, article_type)` on a successfully fetched feed:
process the first 20 entries starting from a fresh `seen_links`. -/
def fetch_rss (ctx : Ctx) (src : Source) (atype : Str) (entries : List RssEntry)
    (st : RunState) : RunState :=
  (fetchRssEntries ctx src atype (entries.take 20) (st, 0, [])).1

/-- Fetching a list of feed sources in registry order with the shared run
state (the loop of `fetch_all_news` / `fetch_fact_news` over RSS sources). -/
def fetchManyRss (ctx : Ctx) (atype : Str) (srcs : List (Source × List RssEntry))
    (st : RunState) : RunState :=
  srcs.foldl (fun s p => fetch_rss ctx p.1 atype p.2 s) st

/-! ## `EnhancedNewsAnalyzer.fetch_hackernews` (lines 684-785, hit loop 720-755)

Again the retry/transport wrapper is external; the loop over `hits[:10]` is
modelled exactly. -/

/-- The title gate of the AI mode:
`any(keyword in title.lower() for keyword in ['ai','llm','gpt','openai','anthropic'])`. -/
def hnAiGate (title : Str) : Bool :=
  ((["ai", "llm", "gpt", "openai", "anthropic"] : List String).map String.data).any
    fun kw => substrIn kw (lower title)

/-- The importance stored for a Hacker News hit:
`min(9, 6 + (hit.get('points', 0) // 20))` (line 740). -/
def hnImportance (points : Nat) : Nat := min 9 (6 + points / 20)

/-- The link of a hit: its `url`, else the `news.ycombinator.com` item page. -/
def hnLink (hit : HnHit) : Str :=
  hit.url.getD (("https://news.ycombinator.com/item?id=".data) ++ hit.objectID)

/-- The article dict built at lines 732-744. -/
def mkHnArticle (ctx : Ctx) (src : Source) (atype : Str) (hit : HnHit) : Article :=
  let title := hit.title.getD []
  let lang := src.lang.getD ("en".data)
  { id := ("hn_".data) ++ hit.objectID
    title := title
    link := hnLink hit
    source := src.name
    summary := none
    category := src.category.getD ("tech".data)
    lang := lang
    importance := hnImportance (hit.points.getD 0)
    time := hit.created_at_i.getD 0
    type := atype
    points := some (hit.points.getD 0)
    comments := some (hit.num_comments.getD 0)
    title_translated :=
      if lang = ("en".data) then some (ctx.translate title []).1 else none
    summary_translated := none }

/-- The body of the `for hit in hits[:10]` loop for one hit. -/
def processHnHit (ctx : Ctx) (src : Source) (atype : Str) (hit : HnHit) :
    RunState × List Str → RunState × List Str :=
  fun (st, seen) =>
    let link_hash := ctx.hash (hnLink hit)
    if link_hash ∈ seen then (st, seen)
    else
      let seen' := link_hash :: seen
      if atype = ("ai".data) ∧ ¬ hnAiGate (hit.title.getD []) = true then (st, seen')
      else
        let article := mkHnArticle ctx src atype hit
        if atype = ("ai".data) then
          ({ st with all_articles := st.all_articles ++ [article],
                     ai_articles := st.ai_articles ++ [article] }, seen')
        else
          ({ st with all_articles := st.all_articles ++ [article],
                     fact_articles := st.fact_articles ++ [article] }, seen')

/-- `fetch_hackernews(source, article_type)` on a successfully fetched
result page: process the first 10 hits with a fresh `seen_links`. -/
def fetch_hackernews (ctx : Ctx) (src : Source) (atype : Str) (hits : List HnHit)
    (st : RunState) : RunState :=
  ((hits.take 10).foldl (fun acc hit => processHnHit ctx src atype hit acc) (st, [])).1

/-! ## `EnhancedNewsAnalyzer.fetch_fact_news` post-pass (lines 520-531)

After all fact sources are fetched, `fact_articles` is deduplicated by `id`
(first seen wins), sorted by `(importance, time)` descending — Python's sort
is stable, embedded here as a stable insertion sort — and cut to 10. -/

/-- Stable insertion of `x` into a descending-sorted list: `x` moves before
`y` only when `lt y x`, so among equal keys earlier input stays first. -/
def insertDesc (lt : α → α → Bool) (x : α) : List α → List α
  | [] => [x]
  | y :: ys => if lt y x then x :: y :: ys else y :: insertDesc lt x ys

/-- Python `sorted(l, key=…, reverse=True)` (a stable descending sort):
inserting the elements in input order keeps equal-key elements in input
order. -/
def sortDesc (lt : α → α → Bool) (l : List α) : List α :=
  l.foldl (fun acc x => insertDesc lt x acc) []

/-- Strict comparison of the sort key
`(x.get('importance', 5), x['time'])` (line 529); on this model every
article carries both fields. -/
def factKeyLt (a b : Article) : Bool :=
  decide (a.importance < b.importance) ||
    (a.importance == b.importance && decide (a.time < b.time))

/-- The `unique_facts` pass: keep the first article for each `id`
(`seen_ids` accumulates the accepted ids). -/
def uniqueFacts : List Article → List Str → List Article
  | [], _ => []
  | a :: rest, seen_ids =>
    if a.id ∈ seen_ids then uniqueFacts rest seen_ids
    else a :: uniqueFacts rest (a.id :: seen_ids)

/-- The whole post-pass of `fetch_fact_news`: dedup, stable descending sort
by `(importance, time)`, first 10. -/
def fetchFactNewsPost (facts : List Article) : List Article :=
  (sortDesc factKeyLt (uniqueFacts facts [])).take 10

/-! ## `EnhancedNewsAnalyzer.analyze_with_gemini` / `_fallback_analysis`
(lines 837-978)

The returned Python dict is embedded as `GeminiAnalysis`; `key_points` is a
JSON key the service may omit (then filled from `content_tags[:3]`), and
`provenance` records the value of a provenance/source key of the mapping
when one is present — no construction site of this file ever writes one. -/

/-- The analysis record of `tech_news_ai_with_facts.py`. -/
structure GeminiAnalysis where
  content_summary : Str
  content_tags : List Str
  importance_level : Str
  impact_scope : Str
  attention_reason : Str
  key_points : Option (List Str)
  provenance : Option Str
  deriving DecidableEq, Repr

/-- True when every keyword group member is absent / one member occurs
(Python `any(word in text for word in words)`). -/
def anyWordIn (words : List Str) (text : Str) : Bool :=
  words.any fun w => substrIn w text

/-- Keyword group `政治` (politics). -/
def politicsWords : List Str :=
  (["politics", "government", "policy", "政治", "政府", "政策"] : List String).map String.data

/-- Keyword group `经济` (economy). -/
def economyWords : List Str :=
  (["economy", "financial", "market", "经济", "金融", "市场"] : List String).map String.data

/-- Keyword group `科技` (technology). -/
def techWords : List Str :=
  (["technology", "tech", "digital", "科技", "技术", "数字化"] : List String).map String.data

/-- Keyword group `健康` (health). -/
def healthWords : List Str :=
  (["health", "medical", "疫情", "疫苗", "健康", "医疗"] : List String).map String.data

/-- Keyword group `环境` (environment). -/
def environmentWords : List Str :=
  (["environment", "climate", "环保", "气候", "环境", "生态"] : List String).map String.data

/-- The extended AI keyword list of `_fallback_analysis` (lines 943-962). -/
def fallbackAiWords : List Str :=
  (["ai", "llm", "gpt", "transformer", "人工智能", "大模型", "生成式ai",
    "reasoning", "推理", "chain of thought", "思维链", "cot",
    "routing", "路由", "router", "分发",
    "agent", "智能体", "自主代理",
    "rlhf", "人类反馈强化学习", "reinforcement learning",
    "fine-tuning", "微调", "adapter", "适配器",
    "multimodal", "多模态", "vision", "图像", "audio", "音频",
    "embedding", "嵌入", "vector", "向量",
    "attention", "注意力", "self-attention", "自注意力",
    "few-shot", "少样本", "zero-shot", "零样本",
    "prompt", "提示词", "instruction", "指令",
    "benchmark", "基准测试", "evaluation", "评估",
    "moe", "混合专家", "sparse", "稀疏",
    "diffusion", "扩散模型", "stable diffusion",
    "rl", "强化学习", "q-learning",
    "nlp", "自然语言处理", "computer vision", "计算机视觉",
    "robotics", "机器人", "autonomous", "自动驾驶",
    "ethics", "伦理", "bias", "偏见", "fairness", "公平性"] : List String).map String.data

/-- The tag list of `_fallback_analysis`: one tag per matching keyword
group in source order, defaulting to `综合新闻` when none matches. -/
def fallbackTags (title summary : Str) : List Str :=
  let text := lower (title ++ ' ' :: summary)
  let tags :=
    (if anyWordIn politicsWords text then [("政治".data)] else []) ++
    (if anyWordIn economyWords text then [("经济".data)] else []) ++
    (if anyWordIn techWords text then [("科技".data)] else []) ++
    (if anyWordIn healthWords text then [("健康".data)] else []) ++
    (if anyWordIn environmentWords text then [("环境".data)] else []) ++
    (if anyWordIn fallbackAiWords text then [("AI相关".data)] else [])
  if tags.isEmpty then [("综合新闻".data)] else tags

/-- `_fallback_analysis(article)` (lines 916-978): deterministic keyword
analysis over `f"{article['title']} {article.get('summary','')}".lower()`;
the returned dict carries no provenance/source key. -/
def fallback_analysis (article : Article) : GeminiAnalysis :=
  let tags := fallbackTags article.title (article.summary.getD [])
  { content_summary := ("暂无详细摘要".data)
    content_tags := tags
    importance_level := ("中".data)
    impact_scope := ("广泛关注".data)
    attention_reason := ("值得关注的新闻报道".data)
    key_points := some tags
    provenance := none }

/-- Outcome of the primary (Gemini) call: missing API key, a raised
exception (network, quota, model error, `json.JSONDecodeError`), a response
without a `{...}` block, or a parsed JSON mapping. -/
inductive GeminiOutcome where
  | noApiKey
  | exn
  | noJsonMatch
  | parsed (a : GeminiAnalysis)

/-- Whether the primary-service attempt failed. -/
def GeminiOutcome.isFailure : GeminiOutcome → Bool
  | .parsed _ => false
  | _ => true

/-- `analyze_with_gemini(article)`: total — every failure mode falls back to
`_fallback_analysis`; a parsed response only gets `key_points` defaulted
from `content_tags[:3]` when the key is absent. -/
def analyze_with_gemini (o : GeminiOutcome) (article : Article) : GeminiAnalysis :=
  match o with
  | .parsed a => { a with key_points := some (a.key_points.getD (a.content_tags.take 3)) }
  | _ => fallback_analysis article

/-! ## `AITechNewsAnalyzer.analyze_with_zhipu` / `_fallback_analysis`
(`tech_news_ai.py` lines 233-323)

This analyzer returns a dict that always carries a provenance key
(`'source'`): `'zhipu_ai'` on the service path, `'keyword_analysis'` on the
keyword fallback.  The field is still `Option` so that "the key is present"
is expressible. -/

/-- The analysis record of `tech_news_ai.py` (`source` is the provenance
key of the returned dict). -/
structure ZhipuAnalysis where
  technique_tags : List Str
  innovation_level : Str
  industry_impact : Str
  recommendation : Str
  technique_points : List Str
  source : Option Str
  deriving DecidableEq, Repr

/-- A parsed JSON reply of the service; each key is read with a
`.get` default. -/
structure ZhipuParsed where
  technique_points : Option (List Str)
  innovation_level : Option Str
  industry_impact : Option Str
  recommendation_reason : Option Str
  tech_tags : Option (List Str)
  deriving DecidableEq, Repr

/-- The literal default `analysis_result` used when the reply has no
`{...}` block (lines 279-285). -/
def zhipuDefaultParsed : ZhipuParsed :=
  { technique_points := some [("AI技术".data)]
    innovation_level := some ("中".data)
    industry_impact := some ("推动AI技术发展".data)
    recommendation_reason := some ("文章涉及当前AI热点话题".data)
    tech_tags := some [("人工智能".data)] }

/-- The record built from `analysis_result` (lines 287-294); the provenance
key is always written: `'source': 'zhipu_ai'`. -/
def zhipuFromParsed (r : ZhipuParsed) : ZhipuAnalysis :=
  { technique_tags := r.tech_tags.getD [("AI技术".data)]
    innovation_level := r.innovation_level.getD (("中".data))
    industry_impact := r.industry_impact.getD (("技术进展".data))
    recommendation := r.recommendation_reason.getD (("值得关注".data))
    technique_points := r.technique_points.getD []
    source := some ("zhipu_ai".data) }

/-- `AITechNewsAnalyzer._fallback_analysis` (lines 300-323): keyword tags
with default `['AI技术']` and provenance `'source': 'keyword_analysis'`. -/
def zhipuFallback (article : Article) : ZhipuAnalysis :=
  let text := lower (article.title ++ ' ' :: article.summary.getD [])
  let tags :=
    (if anyWordIn ((["llm", "gpt", "大语言模型"] : List String).map String.data) text
      then [("大语言模型".data)] else []) ++
    (if anyWordIn ((["transformer", "注意力机制"] : List String).map String.data) text
      then [("Transformer".data)] else []) ++
    (if anyWordIn ((["multimodal", "多模态"] : List String).map String.data) text
      then [("多模态AI".data)] else []) ++
    (if anyWordIn ((["computer vision", "计算机视觉"] : List String).map String.data) text
      then [("计算机视觉".data)] else [])
  let tech_tags := if tags.isEmpty then [("AI技术".data)] else tags
  { technique_tags := tech_tags
    innovation_level := ("中".data)
    industry_impact := ("推动AI技术发展".data)
    recommendation := ("AI领域相关进展".data)
    technique_points := tech_tags
    source := some ("keyword_analysis".data) }

/-- Outcome of the Zhipu call: exception, reply without a JSON block, or
parsed JSON. -/
inductive ZhipuOutcome where
  | exn
  | noJsonMatch
  | parsed (r : ZhipuParsed)

/-- `analyze_with_zhipu(article)`: exceptions fall back to the keyword
analysis, a reply without JSON uses the literal default mapping, both
non-exception paths stamp `'source': 'zhipu_ai'`. -/
def analyze_with_zhipu (o : ZhipuOutcome) (article : Article) : ZhipuAnalysis :=
  match o with
  | .exn => zhipuFallback article
  | .noJsonMatch => zhipuFromParsed zhipuDefaultParsed
  | .parsed r => zhipuFromParsed r

/-! ## Featured-article selection

`AITechNewsAnalyzer.select_featured_article` (`tech_news_ai.py` 377-406)
and the AI/fact halves of `EnhancedNewsAnalyzer.select_featured_articles`
(`tech_news_ai_with_facts.py` 1036-1063).  All three build a score, sort
descending with Python's stable sort and take the first element. -/

/-- The source-authority weights of `select_featured_article` (lines
388-394), read with `.get(source, 0)`. -/
def source_weights : List (Str × Nat) :=
  [(("Arxiv AI Papers".data), 3), (("MIT Tech Review AI".data), 3),
   (("机器之心".data), 2), (("量子位".data), 2), (("TechCrunch AI".data), 2)]

/-- Weight lookup with default 0. -/
def sourceWeight (s : Str) : Nat :=
  ((source_weights.find? fun p => decide (p.1 = s)).map Prod.snd).getD 0

/-- The composite score of `select_featured_article`: importance, plus the
source weight, plus 1 when the summary is longer than 150 characters. -/
def featuredScore (a : Article) : Nat :=
  a.importance + sourceWeight a.source +
    (if 150 < (a.summary.getD []).length then 1 else 0)

/-- `select_featured_article()`: build `(score, article)` pairs, stable-sort
them descending on the score and take the first pair's article. -/
def select_featured_article (arts : List Article) : Option Article :=
  if arts.isEmpty then none
  else
    ((sortDesc (fun p q : Nat × Article => decide (p.1 < q.1))
        (arts.map fun a => (featuredScore a, a))).head?).map Prod.snd

/-- The AI half of `select_featured_articles` (lines 1038-1044): pairs
`(a.get('importance', 5), a)`, stable descending sort on the first
component, first article. -/
def select_featured_ai (ai : List Article) : Option Article :=
  if ai.isEmpty then none
  else
    ((sortDesc (fun p q : Nat × Article => decide (p.1 < q.1))
        (ai.map fun a => (a.importance, a))).head?).map Prod.snd

/-- The `_score` of the fact half (lines 1048-1055): importance plus
thresholded engagement bonuses (+1 for more than 50 points, +1 for more
than 20 comments). -/
def factScore (a : Article) : Nat :=
  a.importance + (if 50 < a.points.getD 0 then 1 else 0) +
    (if 20 < a.comments.getD 0 then 1 else 0)

/-- The fact half of `select_featured_articles` (lines 1046-1063): stable
descending sort of the articles on `_score`, first article. -/
def select_featured_fact (facts : List Article) : Option Article :=
  if facts.isEmpty then none
  else (sortDesc (fun a b => decide (factScore a < factScore b)) facts).head?

/-! ## `baidu_translator.py`: `detect_language`, `translate_text`,
`translate_news_item` (lines 70-274)

The ratio comparisons `zh_count / len(text) > 0.3` and `en_ratio > 0.5` are
embedded as the exact integer comparisons `10 * zh_count > 3 * len` and
`2 * en_count > len`; the Python float evaluation agrees with the exact
rational one for every text shorter than about `10^16` characters. -/

/-- `BaiduTranslator.detect_language` (lines 70-87): all-whitespace text is
`auto`; more than 30% CJK characters is `zh`; else more than 50% ASCII
letters (after `char.lower()`) is `en`; else `auto`. -/
def detect_language (text : Str) : Str :=
  if (pyStrip text).isEmpty then ("auto".data)
  else
    let zh_count :=
      (text.filter fun c => decide (0x4e00 ≤ c.toNat) && decide (c.toNat ≤ 0x9fff)).length
    let en_count :=
      (text.filter fun c => decide ('a' ≤ lowerChar c) && decide (lowerChar c ≤ 'z')).length
    if 3 * text.length < 10 * zh_count then ("zh".data)
    else if text.length < 2 * en_count then ("en".data)
    else ("auto".data)

/-- `BaiduTranslator.translate_text(text, 'auto', 'zh')` as called by
`translate_news_item`: `configured` is the presence of both credentials and
`svc` the network request outcome (`none` = API error / timeout /
exception, lines 122-173).  Empty or all-whitespace text is returned
unchanged; unconfigured returns `None`; detected-Chinese text is returned
unchanged without a request. -/
def translate_text (configured : Bool) (svc : Str → Option Str) (text : Str) :
    Option Str :=
  if text.isEmpty || (pyStrip text).isEmpty then some text
  else if configured = false then none
  else if detect_language text = ("zh".data) then some text
  else svc text

/-- Whether a character ends a sentence for `_translate_long_text`
(`char in '.!?。！？'`). -/
def sentenceEnd (c : Char) : Bool :=
  (['.', '!', '?', '。', '！', '？'] : List Char).any (· == c)

/-- The sentence splitter of `_translate_long_text` (lines 238-249):
accumulate characters, close a sentence at a sentence-end character once
more than 50 characters long, strip each piece. -/
def splitSentences (text : Str) : List Str :=
  let r := text.foldl
    (fun (acc : List Str × Str) c =>
      let current := acc.2 ++ [c]
      if sentenceEnd c ∧ 50 < current.length then (acc.1 ++ [pyStrip current], [])
      else (acc.1, current))
    ([], [])
  if r.2.isEmpty then r.1 else r.1 ++ [pyStrip r.2]

/-- Python `' '.join(parts)`. -/
def joinSpace : List Str → Str
  | [] => []
  | [s] => s
  | s :: rest => s ++ ' ' :: joinSpace rest

/-- `_translate_long_text` (lines 227-274): batch the sentences up to 1500
characters, translate each batch with `tr`, drop falsy results, join the
translated parts with spaces. -/
def translate_long_text (tr : Str → Option Str) (text : Str) : Str :=
  let r := (splitSentences text).foldl
    (fun (acc : List Str × Str) sentence =>
      if 1500 < acc.2.length + sentence.length then
        (match tr acc.2 with
         | some t => if t.isEmpty then acc.1 else acc.1 ++ [t]
         | none => acc.1,
         sentence)
      else (acc.1, if acc.2.isEmpty then sentence else acc.2 ++ ' ' :: sentence))
    ([], [])
  joinSpace
    (if r.2.isEmpty then r.1
     else
       match tr r.2 with
       | some t => if t.isEmpty then r.1 else r.1 ++ [t]
       | none => r.1)

/-- The result dict of `translate_news_item`, flattened: `original_title` /
`original_summary` are `result['original']`, `translated_title` /
`translated_summary` are `result['translated']` (initialized to the empty
string), `note` is the optional `result['note']`. -/
structure NewsTranslation where
  original_title : Str
  original_summary : Str
  translated_title : Str
  translated_summary : Str
  language : Str
  note : Option Str
  deriving DecidableEq, Repr

/-- `BaiduTranslator.translate_news_item(title, summary, force_translate)`
(lines 175-225).  Detected-Chinese input without `force_translate` is
returned as its own translation with an explanatory note and no service
call; otherwise title and summary are translated (the summary through
`_translate_long_text` when longer than 2000 characters) and falsy
translations leave the empty-string defaults. -/
def translate_news_item (configured : Bool) (svc : Str → Option Str)
    (title summary : Str) (force_translate : Bool) : NewsTranslation :=
  let language := detect_language (title ++ summary)
  let init : NewsTranslation :=
    { original_title := title, original_summary := summary,
      translated_title := [], translated_summary := [],
      language := language, note := none }
  if force_translate = false ∧ language = ("zh".data) then
    { init with translated_title := title, translated_summary := summary,
                note := some ("原文为中文，未翻译".data) }
  else
    let tr := translate_text configured svc
    let r1 :=
      if title.isEmpty then init
      else
        match tr title with
        | some t => if t.isEmpty then init else { init with translated_title := t }
        | none => init
    if summary.isEmpty then r1
    else
      let ts :=
        if 2000 < summary.length then some (translate_long_text tr summary)
        else tr summary
      match ts with
      | some t => if t.isEmpty then r1 else { r1 with translated_summary := t }
      | none => r1

/-! ## Lemmas about the stable descending sort -/

/-- The left-to-right maximum kept by the head of the stable sort: `a` is
replaced only by a strictly greater later element. -/
def pickBy (lt : α → α → Bool) : α → List α → α
  | a, [] => a
  | a, x :: xs => pickBy lt (if lt a x then x else a) xs

theorem insertDesc_head? (lt : α → α → Bool) (x : α) (l : List α) :
    (insertDesc lt x l).head? =
      some (match l.head? with
            | none => x
            | some y => if lt y x then x else y) := by
  cases l with
  | nil => rfl
  | cons y ys =>
    by_cases h : lt y x <;> simp [insertDesc, h]

theorem foldl_insertDesc_head? (lt : α → α → Bool) :
    ∀ (l acc : List α) (a : α), acc.head? = some a →
      (List.foldl (fun acc x => insertDesc lt x acc) acc l).head? =
        some (pickBy lt a l) := by
  intro l
  induction l with
  | nil => intro acc a h; simpa [pickBy] using h
  | cons x xs ih =>
    intro acc a h
    simp only [List.foldl, pickBy]
    apply ih
    rw [insertDesc_head?, h]

theorem insertDesc_perm (lt : α → α → Bool) (x : α) (l : List α) :
    (insertDesc lt x l).Perm (x :: l) := by
  induction l with
  | nil => exact List.Perm.refl _
  | cons y ys ih =>
    by_cases h : lt y x
    · simp [insertDesc, h]
    · simp only [insertDesc, h, if_neg, Bool.false_eq_true, not_false_iff, ite_false]
      exact (List.Perm.cons y ih).trans (List.Perm.swap x y ys)

theorem foldl_insertDesc_perm (lt : α → α → Bool) :
    ∀ (l acc : List α),
      (List.foldl (fun acc x => insertDesc lt x acc) acc l).Perm (acc ++ l) := by
  intro l
  induction l with
  | nil => intro acc; simp
  | cons x xs ih =>
    intro acc
    simp only [List.foldl]
    refine (ih (insertDesc lt x acc)).trans ?_
    refine (List.Perm.append_right xs (insertDesc_perm lt x acc)).trans ?_
    simpa using List.perm_middle.symm

theorem sortDesc_perm (lt : α → α → Bool) (l : List α) : (sortDesc lt l).Perm l := by
  simpa [sortDesc] using foldl_insertDesc_perm lt l []

theorem pickBy_spec {β : Type} [LinearOrder β] (key : α → β) :
    ∀ (l : List α) (a : α),
      (pickBy (fun p q => decide (key p < key q)) a l = a ∧ ∀ x ∈ l, key x ≤ key a) ∨
      ∃ i, ∃ hi : i < l.length,
        pickBy (fun p q => decide (key p < key q)) a l = l.get ⟨i, hi⟩ ∧
        key a < key (l.get ⟨i, hi⟩) ∧
        (∀ x ∈ l.take i, key x < key (l.get ⟨i, hi⟩)) ∧
        ∀ x ∈ l, key x ≤ key (l.get ⟨i, hi⟩) := by
  intro l
  induction l with
  | nil => intro a; left; exact ⟨rfl, by simp⟩
  | cons x xs ih =>
    intro a
    by_cases hax : key a < key x
    · have hstep : pickBy (fun p q => decide (key p < key q)) a (x :: xs) =
          pickBy (fun p q => decide (key p < key q)) x xs := by
        simp [pickBy, hax]
      rcases ih x with ⟨heq, hall⟩ | ⟨i, hi, heq, hgt, htake, hall⟩
      · right
        refine ⟨0, by simp, ?_, ?_, by simp, ?_⟩
        · simpa [hstep] using heq
        · simpa using hax
        · intro y hy
          rcases List.mem_cons.mp hy with rfl | hy
          · simp
          · simpa using hall y hy
      · right
        refine ⟨i + 1, by simpa using Nat.succ_lt_succ hi, ?_, ?_, ?_, ?_⟩
        · simpa [hstep] using heq
        · simpa using hax.trans hgt
        · intro y hy
          rw [List.take_succ_cons] at hy
          rcases List.mem_cons.mp hy with rfl | hy
          · simpa using hgt
          · simpa using htake y hy
        · intro y hy
          rcases List.mem_cons.mp hy with rfl | hy
          · simpa using hgt.le
          · simpa using hall y hy
    · have hkx : key x ≤ key a := not_lt.mp hax
      have hstep : pickBy (fun p q => decide (key p < key q)) a (x :: xs) =
          pickBy (fun p q => decide (key p < key q)) a xs := by
        simp [pickBy, hax]
      rcases ih a with ⟨heq, hall⟩ | ⟨i, hi, heq, hgt, htake, hall⟩
      · left
        refine ⟨by rw [hstep, heq], ?_⟩
        intro y hy
        rcases List.mem_cons.mp hy with rfl | hy
        · exact hkx
        · exact hall y hy
      · right
        refine ⟨i + 1, by simpa using Nat.succ_lt_succ hi, ?_, ?_, ?_, ?_⟩
        · simpa [hstep] using heq
        · simpa using hgt
        · intro y hy
          rw [List.take_succ_cons] at hy
          rcases List.mem_cons.mp hy with rfl | hy
          · simpa using hkx.trans_lt hgt
          · simpa using htake y hy
        · intro y hy
          rcases List.mem_cons.mp hy with rfl | hy
          · simpa using hkx.trans (le_of_lt hgt)
          · simpa using hall y hy

/-- Head of the stable descending sort of `(score, article)` pairs: it is
the earliest element of maximal score. -/
theorem select_pairs_spec (f : α → Nat) (l : List α) (h : l ≠ []) :
    ∃ i, ∃ hi : i < l.length,
      ((sortDesc (fun p q : Nat × α => decide (p.1 < q.1))
          (l.map fun a => (f a, a))).head?).map Prod.snd = some (l.get ⟨i, hi⟩) ∧
      (∀ b ∈ l, f b ≤ f (l.get ⟨i, hi⟩)) ∧
      ∀ b ∈ l.take i, f b < f (l.get ⟨i, hi⟩) := by
  obtain ⟨b, rest, rfl⟩ := List.exists_cons_of_ne_nil h
  have hhead : (sortDesc (fun p q : Nat × α => decide (p.1 < q.1))
      ((b :: rest).map fun a => (f a, a))).head? =
      some (pickBy (fun p q : Nat × α => decide (p.1 < q.1)) (f b, b)
        (rest.map fun a => (f a, a))) := by
    simp only [sortDesc, List.map_cons, List.foldl_cons]
    exact foldl_insertDesc_head? _ _ _ _ rfl
  rcases pickBy_spec (Prod.fst : Nat × α → Nat) (rest.map fun a => (f a, a)) (f b, b) with
    ⟨heq, hall⟩ | ⟨i, hi, heq, hgt, htake, hall⟩
  · refine ⟨0, by simp, ?_, ?_, by simp⟩
    · rw [hhead, heq]; rfl
    · intro y hy
      rcases List.mem_cons.mp hy with rfl | hy
      · simp
      · simpa using hall (f y, y) (List.mem_map_of_mem _ hy)
  · have hi' : i < rest.length := by simpa using hi
    have hgetp : (rest.map fun a => (f a, a)).get ⟨i, hi⟩ =
        (f (rest.get ⟨i, hi'⟩), rest.get ⟨i, hi'⟩) := by
      simp [List.get_eq_getElem, List.getElem_map]
    refine ⟨i + 1, by simpa using Nat.succ_lt_succ hi', ?_, ?_, ?_⟩
    · rw [hhead, heq, hgetp]
      simp [List.get_eq_getElem]
    · intro y hy
      rcases List.mem_cons.mp hy with rfl | hy
      · have := hgt
        rw [hgetp] at this
        simpa [List.get_eq_getElem] using this.le
      · have := hall (f y, y) (List.mem_map_of_mem _ hy)
        rw [hgetp] at this
        simpa [List.get_eq_getElem] using this
    · intro y hy
      rw [List.take_succ_cons] at hy
      rcases List.mem_cons.mp hy with rfl | hy
      · have := hgt
        rw [hgetp] at this
        simpa [List.get_eq_getElem] using this
      · have hymem : (f y, y) ∈ (rest.map fun a => (f a, a)).take i := by
          rw [← List.map_take]
          exact List.mem_map_of_mem _ hy
        have := htake (f y, y) hymem
        rw [hgetp] at this
        simpa [List.get_eq_getElem] using this

/-- Inserting into a descending-sorted list keeps it descending-sorted. -/
theorem insertDesc_sorted {β : Type} [LinearOrder β] (key : α → β) (x : α)
    (l : List α) (hl : l.Pairwise fun a b => key b ≤ key a) :
    (insertDesc (fun p q => decide (key p < key q)) x l).Pairwise
      fun a b => key b ≤ key a := by
  induction l with
  | nil => simp [insertDesc]
  | cons y ys ih =>
    rcases List.pairwise_cons.mp hl with ⟨hy, hys⟩
    by_cases h : key y < key x
    · have : insertDesc (fun p q => decide (key p < key q)) x (y :: ys) =
          x :: y :: ys := by simp [insertDesc, h]
      rw [this]
      refine List.pairwise_cons.mpr ⟨?_, hl⟩
      intro b hb
      rcases List.mem_cons.mp hb with rfl | hb
      · exact h.le
      · exact (hy b hb).trans h.le
    · have : insertDesc (fun p q => decide (key p < key q)) x (y :: ys) =
          y :: insertDesc (fun p q => decide (key p < key q)) x ys := by
        simp [insertDesc, h]
      rw [this]
      refine List.pairwise_cons.mpr ⟨?_, ih hys⟩
      intro b hb
      have hb' : b ∈ x :: ys := (insertDesc_perm _ x ys).mem_iff.mp hb
      rcases List.mem_cons.mp hb' with rfl | hb'
      · exact not_lt.mp h
      · exact hy b hb'

/-- `sortDesc` with a strict key comparison really sorts: the output is
descending in the key (together with `sortDesc_perm` and the stable
insertion position this pins down Python's `sorted(..., reverse=True)`). -/
theorem sortDesc_sorted {β : Type} [LinearOrder β] (key : α → β) (l : List α) :
    (sortDesc (fun p q => decide (key p < key q)) l).Pairwise
      fun a b => key b ≤ key a := by
  suffices haux : ∀ (l acc : List α), (acc.Pairwise fun a b => key b ≤ key a) →
      ((List.foldl (fun acc x => insertDesc (fun p q => decide (key p < key q)) x acc)
        acc l).Pairwise fun a b => key b ≤ key a) by
    exact haux l [] (by simp)
  intro l
  induction l with
  | nil => intro acc hacc; simpa using hacc
  | cons x xs ih =>
    intro acc hacc
    simp only [List.foldl_cons]
    exact ih _ (insertDesc_sorted key x acc hacc)

/-- Head of the stable descending sort of the articles themselves (the
form used by the fact-pool selector): the earliest element of maximal key. -/
theorem select_direct_spec {β : Type} [LinearOrder β] (key : α → β) (l : List α)
    (h : l ≠ []) :
    ∃ i, ∃ hi : i < l.length,
      (sortDesc (fun a b => decide (key a < key b)) l).head? = some (l.get ⟨i, hi⟩) ∧
      (∀ b ∈ l, key b ≤ key (l.get ⟨i, hi⟩)) ∧
      ∀ b ∈ l.take i, key b < key (l.get ⟨i, hi⟩) := by
  obtain ⟨b, rest, rfl⟩ := List.exists_cons_of_ne_nil h
  have hhead : (sortDesc (fun a b => decide (key a < key b)) (b :: rest)).head? =
      some (pickBy (fun a b => decide (key a < key b)) b rest) := by
    simp only [sortDesc, List.foldl_cons]
    exact foldl_insertDesc_head? _ _ _ _ rfl
  rcases pickBy_spec key rest b with ⟨heq, hall⟩ | ⟨i, hi, heq, hgt, htake, hall⟩
  · refine ⟨0, by simp, ?_, ?_, by simp⟩
    · rw [hhead, heq]; rfl
    · intro y hy
      rcases List.mem_cons.mp hy with rfl | hy
      · simp
      · simpa using hall y hy
  · refine ⟨i + 1, by simpa using Nat.succ_lt_succ hi, ?_, ?_, ?_⟩
    · rw [hhead, heq]
      simp [List.get_eq_getElem]
    · intro y hy
      rcases List.mem_cons.mp hy with rfl | hy
      · simpa [List.get_eq_getElem] using hgt.le
      · simpa [List.get_eq_getElem] using hall y hy
    · intro y hy
      rw [List.take_succ_cons] at hy
      rcases List.mem_cons.mp hy with rfl | hy
      · simpa [List.get_eq_getElem] using hgt
      · simpa [List.get_eq_getElem] using htake y hy

/-! ## Lemmas about the `unique_facts` pass -/

theorem uniqueFacts_id_not_mem :
    ∀ (l : List Article) (seen : List Str), ∀ a ∈ uniqueFacts l seen, a.id ∉ seen := by
  intro l
  induction l with
  | nil => intro seen a ha; simp [uniqueFacts] at ha
  | cons x rest ih =>
    intro seen a ha
    by_cases hx : x.id ∈ seen
    · rw [uniqueFacts, if_pos hx] at ha
      exact ih seen a ha
    · rw [uniqueFacts, if_neg hx] at ha
      rcases List.mem_cons.mp ha with rfl | ha
      · exact hx
      · intro hcon
        exact ih (x.id :: seen) a ha (List.mem_cons_of_mem _ hcon)

theorem uniqueFacts_pairwise :
    ∀ (l : List Article) (seen : List Str),
      (uniqueFacts l seen).Pairwise fun a b => a.id ≠ b.id := by
  intro l
  induction l with
  | nil => intro seen; simp [uniqueFacts]
  | cons x rest ih =>
    intro seen
    by_cases hx : x.id ∈ seen
    · rw [uniqueFacts, if_pos hx]; exact ih seen
    · rw [uniqueFacts, if_neg hx]
      refine List.Pairwise.cons ?_ (ih (x.id :: seen))
      intro b hb
      have := uniqueFacts_id_not_mem rest (x.id :: seen) b hb
      intro hcon
      exact this (by rw [← hcon]; exact List.mem_cons_self _ _)

theorem uniqueFacts_first :
    ∀ (l : List Article) (seen : List Str), ∀ a ∈ uniqueFacts l seen,
      ∃ i, ∃ hi : i < l.length, l.get ⟨i, hi⟩ = a ∧
        ∀ j, ∀ hj : j < l.length, j < i → (l.get ⟨j, hj⟩).id ≠ a.id := by
  intro l
  induction l with
  | nil => intro seen a ha; simp [uniqueFacts] at ha
  | cons x rest ih =>
    intro seen a ha
    by_cases hx : x.id ∈ seen
    · rw [uniqueFacts, if_pos hx] at ha
      obtain ⟨i, hi, heq, hprev⟩ := ih seen a ha
      have hnot : a.id ∉ seen := uniqueFacts_id_not_mem rest seen a ha
      refine ⟨i + 1, Nat.succ_lt_succ hi, by simpa using heq, ?_⟩
      intro j hj hji
      cases j with
      | zero =>
        intro hcon
        simp only [List.get_eq_getElem, List.getElem_cons_zero] at hcon
        exact hnot (hcon ▸ hx)
      | succ k =>
        have hk : k < rest.length := by omega
        have := hprev k hk (by omega)
        simpa using this
    · rw [uniqueFacts, if_neg hx] at ha
      rcases List.mem_cons.mp ha with rfl | ha
      · exact ⟨0, Nat.succ_pos _, by simp, by omega⟩
      · obtain ⟨i, hi, heq, hprev⟩ := ih (x.id :: seen) a ha
        have hnot : a.id ∉ x.id :: seen := uniqueFacts_id_not_mem rest (x.id :: seen) a ha
        refine ⟨i + 1, Nat.succ_lt_succ hi, by simpa using heq, ?_⟩
        intro j hj hji
        cases j with
        | zero =>
          intro hcon
          simp only [List.get_eq_getElem, List.getElem_cons_zero] at hcon
          exact hnot (by rw [← hcon]; exact List.mem_cons_self _ _)
        | succ k =>
          have hk : k < rest.length := by omega
          have := hprev k hk (by omega)
          simpa using this

/-- The `fetch_fact_news` post-pass keeps pairwise-distinct ids and only
first occurrences (in fetch order) of each id. -/
theorem fetchFactNewsPost_spec (facts : List Article) :
    (fetchFactNewsPost facts).Pairwise (fun a b => a.id ≠ b.id) ∧
    ∀ a ∈ fetchFactNewsPost facts,
      ∃ i, ∃ hi : i < facts.length, facts.get ⟨i, hi⟩ = a ∧
        ∀ j, ∀ hj : j < facts.length, j < i → (facts.get ⟨j, hj⟩).id ≠ a.id := by
  have hperm := sortDesc_perm factKeyLt (uniqueFacts facts [])
  constructor
  · have hpair : (sortDesc factKeyLt (uniqueFacts facts [])).Pairwise
        (fun a b => a.id ≠ b.id) :=
      ((hperm.pairwise_iff fun h => Ne.symm h).mpr (uniqueFacts_pairwise facts []))
    exact hpair.sublist (List.take_sublist _ _)
  · intro a ha
    have hmem : a ∈ uniqueFacts facts [] :=
      hperm.mem_iff.mp (List.take_subset _ _ ha)
    exact uniqueFacts_first facts [] a hmem

/-! ## Case analysis of the `fetch_rss` entry loop -/

/-- One entry either leaves the three article lists untouched (possibly
recording its link hash), or appends exactly one article — built by
`mkRssArticle`, with importance 8 on the AI branch — whose publish time
passed the window check and whose link hash was fresh. -/
theorem processRssEntry_spec (ctx : Ctx) (src : Source) (atype : Str) (e : RssEntry)
    (st : RunState) (added : Nat) (seen : List Str) :
    (processRssEntry ctx src atype e (st, added, seen) = (st, added, seen) ∨
     processRssEntry ctx src atype e (st, added, seen) =
       (st, added, ctx.hash (pyStrip e.link) :: seen)) ∨
    ∃ article : Article,
      (article = mkRssArticle ctx src atype e ∨
        article = { mkRssArticle ctx src atype e with importance := 8 }) ∧
      ¬ rssPubTime ctx e < ctx.cutoff ∧
      ctx.hash (pyStrip e.link) ∉ seen ∧
      article.link = pyStrip e.link ∧
      article.time = rssPubTime ctx e ∧
      (processRssEntry ctx src atype e (st, added, seen) =
         ({ st with all_articles := st.all_articles ++ [article],
                    ai_articles := st.ai_articles ++ [article] },
          added + 1, ctx.hash (pyStrip e.link) :: seen) ∨
       processRssEntry ctx src atype e (st, added, seen) =
         ({ st with all_articles := st.all_articles ++ [article],
                    fact_articles := st.fact_articles ++ [article] },
          added + 1, ctx.hash (pyStrip e.link) :: seen)) := by
  by_cases h1 : rssPubTime ctx e < ctx.cutoff
  · exact Or.inl (Or.inl (by simp [processRssEntry, h1]))
  · cases h2 : ((pyStrip e.title).isEmpty || (pyStrip e.link).isEmpty) with
    | true => exact Or.inl (Or.inl (by simp [processRssEntry, h1, h2]))
    | false =>
      by_cases h3 : ctx.hash (pyStrip e.link) ∈ seen
      · exact Or.inl (Or.inl (by simp [processRssEntry, h1, h2, h3]))
      · by_cases h4 : atype = ("ai".data)
        · cases h5 : isAiRelated (pyStrip e.title) (rssCleanSummary ctx e) with
          | true =>
            refine Or.inr ⟨{ mkRssArticle ctx src atype e with importance := 8 },
              Or.inr rfl, h1, h3, rfl, rfl, Or.inl ?_⟩
            simp [processRssEntry, h1, h2, h3, h4, h5]
          | false =>
            exact Or.inl (Or.inr (by simp [processRssEntry, h1, h2, h3, h4, h5]))
        · by_cases h6 : ctx.hash (pyStrip e.link) ∈ st.fact_articles.map (·.id)
          · exact Or.inl (Or.inr (by simp [processRssEntry, h1, h2, h3, h4, h6]))
          · refine Or.inr ⟨mkRssArticle ctx src atype e,
              Or.inl rfl, h1, h3, rfl, rfl, Or.inr ?_⟩
            simp [processRssEntry, h1, h2, h3, h4, h6]

/-- Every article the entry loop adds to `all_articles` passed the window
check: its stored time is at least the cutoff. -/
theorem fetchRssEntries_window (ctx : Ctx) (src : Source) (atype : Str) :
    ∀ (entries : List RssEntry) (st : RunState) (added : Nat) (seen : List Str),
      ∀ a ∈ (fetchRssEntries ctx src atype entries (st, added, seen)).1.all_articles,
        a ∈ st.all_articles ∨ ctx.cutoff ≤ a.time := by
  intro entries
  induction entries with
  | nil =>
    intro st added seen a ha
    exact Or.inl (by simpa [fetchRssEntries] using ha)
  | cons e rest ih =>
    intro st added seen a ha
    rw [fetchRssEntries] at ha
    by_cases hb : 5 ≤ added
    · exact Or.inl (by simpa [hb] using ha)
    · simp only [hb, if_false, if_neg hb] at ha
      rcases processRssEntry_spec ctx src atype e st added seen with
        (h | h) | ⟨article, hart, hcut, hfresh, hlink, htime, (h | h)⟩
      · rw [h] at ha; exact ih st added seen a ha
      · rw [h] at ha; exact ih st added _ a ha
      all_goals {
        rw [h] at ha
        rcases ih _ _ _ a ha with hmem | hle
        · rcases List.mem_append.mp hmem with hmem' | hmem'
          · exact Or.inl hmem'
          · right
            have : a = article := by simpa using hmem'
            rw [this, htime]
            exact not_lt.mp hcut
        · exact Or.inr hle }

/-- Articles added to `all_articles` by one `fetch_rss` call have pairwise
distinct link hashes (the per-call `seen_links` set), hence pairwise
distinct links, and none of their hashes was in the initial `seen_links`. -/
theorem fetchRssEntries_dedup (ctx : Ctx) (src : Source) (atype : Str) :
    ∀ (entries : List RssEntry) (st : RunState) (added : Nat) (seen : List Str),
      ∃ newArts : List Article,
        (fetchRssEntries ctx src atype entries (st, added, seen)).1.all_articles
          = st.all_articles ++ newArts ∧
        (∀ a ∈ newArts, ctx.hash a.link ∉ seen) ∧
        newArts.Pairwise fun a b => ctx.hash a.link ≠ ctx.hash b.link := by
  intro entries
  induction entries with
  | nil =>
    intro st added seen
    exact ⟨[], by simp [fetchRssEntries], by simp, by simp⟩
  | cons e rest ih =>
    intro st added seen
    by_cases hb : 5 ≤ added
    · exact ⟨[], by simp [fetchRssEntries, hb], by simp, by simp⟩
    · rcases processRssEntry_spec ctx src atype e st added seen with
        (h | h) | ⟨article, hart, hcut, hfresh, hlink, htime, (h | h)⟩
      · obtain ⟨new, hall, hnotin, hpair⟩ := ih st added seen
        refine ⟨new, ?_, hnotin, hpair⟩
        rw [fetchRssEntries]
        simp only [hb, if_false, if_neg hb]
        rw [h]
        exact hall
      · obtain ⟨new, hall, hnotin, hpair⟩ := ih st added (ctx.hash (pyStrip e.link) :: seen)
        refine ⟨new, ?_, ?_, hpair⟩
        · rw [fetchRssEntries]
          simp only [hb, if_false, if_neg hb]
          rw [h]
          exact hall
        · intro a ha hcon
          exact hnotin a ha (List.mem_cons_of_mem _ hcon)
      · obtain ⟨new, hall, hnotin, hpair⟩ :=
          ih { st with all_articles := st.all_articles ++ [article],
                       ai_articles := st.ai_articles ++ [article] }
            (added + 1) (ctx.hash (pyStrip e.link) :: seen)
        refine ⟨article :: new, ?_, ?_, ?_⟩
        · rw [fetchRssEntries]
          simp only [hb, if_false, if_neg hb]
          rw [h, hall]
          simp
        · intro a ha
          rcases List.mem_cons.mp ha with rfl | ha
          · rw [hlink]; exact hfresh
          · intro hcon
            exact hnotin a ha (List.mem_cons_of_mem _ hcon)
        · refine List.Pairwise.cons ?_ hpair
          intro b hb2 hcon
          have := hnotin b hb2
          rw [hlink] at hcon
          exact this (by rw [← hcon]; exact List.mem_cons_self _ _)
      · obtain ⟨new, hall, hnotin, hpair⟩ :=
          ih { st with all_articles := st.all_articles ++ [article],
                       fact_articles := st.fact_articles ++ [article] }
            (added + 1) (ctx.hash (pyStrip e.link) :: seen)
        refine ⟨article :: new, ?_, ?_, ?_⟩
        · rw [fetchRssEntries]
          simp only [hb, if_false, if_neg hb]
          rw [h, hall]
          simp
        · intro a ha
          rcases List.mem_cons.mp ha with rfl | ha
          · rw [hlink]; exact hfresh
          · intro hcon
            exact hnotin a ha (List.mem_cons_of_mem _ hcon)
        · refine List.Pairwise.cons ?_ hpair
          intro b hb2 hcon
          have := hnotin b hb2
          rw [hlink] at hcon
          exact this (by rw [← hcon]; exact List.mem_cons_self _ _)

/-- One Hacker News hit leaves `all_articles` unchanged or appends exactly
the article built by `mkHnArticle`. -/
theorem processHnHit_all (ctx : Ctx) (src : Source) (atype : Str) (hit : HnHit)
    (st : RunState) (seen : List Str) :
    ∀ a ∈ (processHnHit ctx src atype hit (st, seen)).1.all_articles,
      a ∈ st.all_articles ∨ a = mkHnArticle ctx src atype hit := by
  intro a ha
  by_cases h1 : ctx.hash (hnLink hit) ∈ seen
  · exact Or.inl (by simpa [processHnHit, h1] using ha)
  · by_cases h3 : atype = ("ai".data)
    · cases hg : hnAiGate (hit.title.getD []) with
      | false => exact Or.inl (by simpa [processHnHit, h1, h3, hg] using ha)
      | true =>
        simp [processHnHit, h1, h3, hg] at ha
        rw [h3]
        exact ha
    · simp [processHnHit, h1, h3] at ha
      exact ha

/-- Every article the hit loop adds comes from one of the hits, through
`mkHnArticle`. -/
theorem fetchHnFold_all (ctx : Ctx) (src : Source) (atype : Str) :
    ∀ (hits : List HnHit) (st : RunState) (seen : List Str),
      ∀ a ∈ (hits.foldl (fun acc hit => processHnHit ctx src atype hit acc)
          (st, seen)).1.all_articles,
        a ∈ st.all_articles ∨ ∃ hit ∈ hits, a = mkHnArticle ctx src atype hit := by
  intro hits
  induction hits with
  | nil => intro st seen a ha; exact Or.inl (by simpa using ha)
  | cons hit rest ih =>
    intro st seen a ha
    simp only [List.foldl_cons] at ha
    rcases hp : processHnHit ctx src atype hit (st, seen) with ⟨st1, seen1⟩
    rw [hp] at ha
    rcases ih st1 seen1 a ha with h | ⟨h2, hmem, heq⟩
    · have h' : a ∈ (processHnHit ctx src atype hit (st, seen)).1.all_articles := by
        rw [hp]; exact h
      rcases processHnHit_all ctx src atype hit st seen a h' with h'' | h''
      · exact Or.inl h''
      · exact Or.inr ⟨hit, List.mem_cons_self _ _, h''⟩
    · exact Or.inr ⟨h2, List.mem_cons_of_mem _ hmem, heq⟩

/-- The default-empty case of the fallback tag list is never empty. -/
theorem ifEmptyDefault_ne_nil (l : List Str) (d : Str) :
    (if l.isEmpty then [d] else l) ≠ [] := by
  split
  · simp
  · next h => exact fun hc => h (by simp [hc])

theorem fallbackTags_ne_nil (t s : Str) : fallbackTags t s ≠ [] := by
  unfold fallbackTags
  exact ifEmptyDefault_ne_nil _ _

/-! ## Concrete fixtures used by counterexamples and witnesses -/

/-- A concrete run context: the hash stand-in is the identity (only equal
links matter to the statements below), html-stripping is the identity,
translation echoes its input, the clock is 10 with cutoff 0. -/
def ctxCex : Ctx :=
  { hash := fun s => s, getText := fun s => s, translate := fun t s => (t, s),
    now := 10, cutoff := 0 }

/-- First concrete source. -/
def srcCex1 : Source :=
  { name := "s1".data, category := some ("tech".data), lang := some ("zh".data) }

/-- Second concrete source (different registry position, same feed content
in the deduplication counterexample). -/
def srcCex2 : Source :=
  { name := "s2".data, category := some ("tech".data), lang := some ("zh".data) }

/-- An AI-relevant entry (title/summary contain `ai`), link of 8 characters. -/
def entryAiCex : RssEntry :=
  { title := "AI news".data, summary := "about ai".data, link := "http://x".data,
    published := some 5, updated := none }

/-- An entry matching no AI keyword. -/
def entryNotAiCex : RssEntry :=
  { title := "hello world".data, summary := "nothing here".data,
    link := "http://y".data, published := some 5, updated := none }

/-- An entry whose publish time cannot be parsed. -/
def entryNoTimeCex : RssEntry :=
  { title := "News item".data, summary := "something".data, link := "http://z".data,
    published := none, updated := none }

/-- The same entry with a parsed publish time equal to the fetch clock. -/
def entryParsedCex : RssEntry := { entryNoTimeCex with published := some 10 }

/-- An entry strictly older than the window boundary. -/
def entryOldCex : RssEntry :=
  { title := "Old".data, summary := "old".data, link := "http://o".data,
    published := some (-1), updated := none }

/-- The empty run state. -/
def emptyState : RunState :=
  { all_articles := [], ai_articles := [], fact_articles := [] }

/-- A concrete article. -/
def artCex : Article :=
  { id := "x".data, title := "hello".data, link := "http://a".data,
    source := "s".data, summary := some ("about ai".data), category := "tech".data,
    lang := "en".data, importance := 6, time := 5, type := "ai".data,
    points := none, comments := none, title_translated := none,
    summary_translated := none }

/-- Two articles with the same id (same canonical link) fetched in this
order. -/
def aDup1 : Article := { artCex with id := "dup".data, importance := 6, time := 1 }

/-- The later colliding article (higher importance, later time). -/
def aDup2 : Article :=
  { artCex with id := "dup".data, title := "other".data, importance := 7, time := 2 }

/-! ## Claims -/

/-- C1 (corrected): deduplication is per-source-call and per-fact-pool, not
global.  (a) Within a single `fetch_rss` call the articles appended to
`all_articles` have pairwise distinct links (the per-call `seen_links`
set).  (b) After the `fetch_fact_news` post-pass the fact pool has pairwise
distinct ids and each surviving article is the first fetched with its id.
Cross-source duplicates in the AI pool are not removed (see the
counterexample). -/
theorem C1_theorem :
    (∀ (ctx : Ctx) (src : Source) (atype : Str) (entries : List RssEntry) (st : RunState),
      ∃ newArts : List Article,
        (fetch_rss ctx src atype entries st).all_articles = st.all_articles ++ newArts ∧
        newArts.Pairwise fun a b => a.link ≠ b.link) ∧
    (∀ facts : List Article,
      (fetchFactNewsPost facts).Pairwise (fun a b => a.id ≠ b.id) ∧
      ∀ a ∈ fetchFactNewsPost facts,
        ∃ i, ∃ hi : i < facts.length, facts.get ⟨i, hi⟩ = a ∧
          ∀ j, ∀ hj : j < facts.length, j < i → (facts.get ⟨j, hj⟩).id ≠ a.id) := by
  constructor
  · intro ctx src atype entries st
    obtain ⟨new, hall, _, hpair⟩ :=
      fetchRssEntries_dedup ctx src atype (entries.take 20) st 0 []
    exact ⟨new, hall, hpair.imp fun hne heq => hne (by rw [heq])⟩
  · exact fun facts => fetchFactNewsPost_spec facts

/-- C1 counterexample: the same link fetched from two different AI sources
survives twice in the run's AI pool (and in `all_articles`): the claimed
cross-source deduplication does not happen on the AI path. -/
theorem C1_counterexample :
    ((fetchManyRss ctxCex ("ai".data) [(srcCex1, [entryAiCex]), (srcCex2, [entryAiCex])]
        emptyState).ai_articles.map Article.link) =
      [("http://x".data), ("http://x".data)] ∧
    ((fetchManyRss ctxCex ("ai".data) [(srcCex1, [entryAiCex]), (srcCex2, [entryAiCex])]
        emptyState).ai_articles.map Article.id) =
      [("http://x".data), ("http://x".data)] := by
  decide

/-- C1 witness: in a concrete fact pool with a duplicated id the survivor
is the first fetched. -/
theorem C1_witness :
    ∃ i, ∃ hi : i < ([aDup1, aDup2] : List Article).length,
      ([aDup1, aDup2] : List Article).get ⟨i, hi⟩ = aDup1 ∧
      ∀ j, ∀ hj : j < ([aDup1, aDup2] : List Article).length, j < i →
        (([aDup1, aDup2] : List Article).get ⟨j, hj⟩).id ≠ aDup1.id :=
  (C1_theorem.2 [aDup1, aDup2]).2 aDup1 (by decide)

/-- C2 (confirmed): `analyze_with_gemini` is total, every primary-service
failure mode (missing key, exception, malformed/non-JSON response) returns
exactly the deterministic keyword fallback, whose tag list is never empty;
the empty text gets the generic default tag. -/
theorem C2_theorem (o : GeminiOutcome) (article : Article) (h : o.isFailure = true) :
    analyze_with_gemini o article = fallback_analysis article ∧
    (analyze_with_gemini o article).content_tags ≠ [] ∧
    (analyze_with_gemini o article).content_tags =
      fallbackTags article.title (article.summary.getD []) ∧
    fallbackTags [] [] = [("综合新闻".data)] := by
  cases o with
  | parsed a => simp [GeminiOutcome.isFailure] at h
  | noApiKey => exact ⟨rfl, fallbackTags_ne_nil _ _, rfl, by decide⟩
  | exn => exact ⟨rfl, fallbackTags_ne_nil _ _, rfl, by decide⟩
  | noJsonMatch => exact ⟨rfl, fallbackTags_ne_nil _ _, rfl, by decide⟩

/-- C2 witness at a concrete failed analysis. -/
theorem C2_witness :
    analyze_with_gemini GeminiOutcome.exn artCex = fallback_analysis artCex ∧
    (analyze_with_gemini GeminiOutcome.exn artCex).content_tags ≠ [] ∧
    (analyze_with_gemini GeminiOutcome.exn artCex).content_tags =
      fallbackTags artCex.title (artCex.summary.getD []) ∧
    fallbackTags [] [] = [("综合新闻".data)] :=
  C2_theorem GeminiOutcome.exn artCex rfl

/-- C3 (confirmed): every article `fetch_rss` adds to the run's collection
has its stored publish time (the parsed one, or `datetime.now()` when
unparseable) at least the 48-hour cutoff; an entry whose publish time is
strictly below the cutoff is rejected without touching the state. -/
theorem C3_theorem :
    (∀ (ctx : Ctx) (src : Source) (atype : Str) (entries : List RssEntry) (st : RunState),
      ∀ a ∈ (fetch_rss ctx src atype entries st).all_articles,
        a ∈ st.all_articles ∨ ctx.cutoff ≤ a.time) ∧
    (∀ (ctx : Ctx) (src : Source) (atype : Str) (e : RssEntry) (st : RunState)
        (added : Nat) (seen : List Str),
      rssPubTime ctx e < ctx.cutoff →
        processRssEntry ctx src atype e (st, added, seen) = (st, added, seen)) ∧
    (∀ (ctx : Ctx) (e : RssEntry) (t : Int), e.published = some t → rssPubTime ctx e = t) ∧
    (∀ (ctx : Ctx) (e : RssEntry), e.published = none → e.updated = none →
      rssPubTime ctx e = ctx.now) := by
  refine ⟨?_, ?_, ?_, ?_⟩
  · intro ctx src atype entries st a ha
    exact fetchRssEntries_window ctx src atype (entries.take 20) st 0 [] a ha
  · intro ctx src atype e st added seen h
    simp [processRssEntry, h]
  · intro ctx e t h
    simp [rssPubTime, h, Option.orElse]
  · intro ctx e h1 h2
    simp [rssPubTime, h1, h2, Option.orElse]

/-- C3 witness: a concrete entry one unit older than the boundary is
rejected. -/
theorem C3_witness :
    processRssEntry ctxCex srcCex1 ("fact".data) entryOldCex (emptyState, 0, []) =
      (emptyState, 0, []) :=
  C3_theorem.2.1 ctxCex srcCex1 ("fact".data) entryOldCex emptyState 0 [] (by decide)

/-- C4 (corrected): only the `tech_news_ai.py` analyzer stamps a provenance
key on every result (`'zhipu_ai'` / `'keyword_analysis'`); the analyzer of
`tech_news_ai_with_facts.py` never writes one — its keyword fallback result
carries no provenance key at all. -/
theorem C4_theorem :
    (∀ (o : ZhipuOutcome) (article : Article),
      ((analyze_with_zhipu o article).source).isSome = true) ∧
    (∀ article : Article, (fallback_analysis article).provenance = none) ∧
    (∀ article : Article, (zhipuFallback article).source = some ("keyword_analysis".data)) ∧
    (∀ r : ZhipuParsed, (zhipuFromParsed r).source = some ("zhipu_ai".data)) := by
  refine ⟨?_, ?_, ?_, ?_⟩
  · intro o article
    cases o <;> rfl
  · intro article; rfl
  · intro article; rfl
  · intro r; rfl

/-- C4 counterexample: the enhanced analyzer's fallback result of a
concrete failed analysis has no provenance key — a caller cannot tell it
from a full analysis. -/
theorem C4_counterexample :
    (analyze_with_gemini GeminiOutcome.exn artCex).provenance = none := rfl

/-- On any failure the translated strings are the original text followed by
the marker, hence never empty. -/
theorem append_marker_ne_nil (s : Str) : s ++ (" (未翻译)".data) ≠ [] := by
  intro hc
  exact absurd (List.append_eq_nil.mp hc).2 (by decide)

/-- C5 (corrected): the relevance classifier is the total, deterministic
Boolean keyword test over `(title, summary)`; but in
`tech_news_ai_with_facts.py` an AI-source entry that fails it is dropped
from every pool — it is not retained in `all_articles` — while a passing
entry is appended to both `all_articles` and the focus pool with
importance 8. -/
theorem C5_theorem :
    (∀ title summary : Str,
      isAiRelated title summary =
        (ai_keywords.any fun kw => substrIn kw (lower (title ++ ' ' :: summary)))) ∧
    (∀ (ctx : Ctx) (src : Source) (e : RssEntry) (st : RunState) (added : Nat)
        (seen : List Str),
      isAiRelated (pyStrip e.title) (rssCleanSummary ctx e) = false →
        (processRssEntry ctx src ("ai".data) e (st, added, seen) = (st, added, seen) ∨
         processRssEntry ctx src ("ai".data) e (st, added, seen) =
           (st, added, ctx.hash (pyStrip e.link) :: seen))) ∧
    (∀ (ctx : Ctx) (src : Source) (e : RssEntry) (st : RunState) (added : Nat)
        (seen : List Str),
      isAiRelated (pyStrip e.title) (rssCleanSummary ctx e) = true →
      ¬ rssPubTime ctx e < ctx.cutoff →
      (pyStrip e.title).isEmpty = false →
      (pyStrip e.link).isEmpty = false →
      ctx.hash (pyStrip e.link) ∉ seen →
        processRssEntry ctx src ("ai".data) e (st, added, seen) =
          ({ st with
              all_articles := st.all_articles ++
                [{ mkRssArticle ctx src ("ai".data) e with importance := 8 }],
              ai_articles := st.ai_articles ++
                [{ mkRssArticle ctx src ("ai".data) e with importance := 8 }] },
           added + 1, ctx.hash (pyStrip e.link) :: seen)) := by
  refine ⟨fun _ _ => rfl, ?_, ?_⟩
  · intro ctx src e st added seen h5
    by_cases h1 : rssPubTime ctx e < ctx.cutoff
    · exact Or.inl (by simp [processRssEntry, h1])
    · cases h2 : ((pyStrip e.title).isEmpty || (pyStrip e.link).isEmpty) with
      | true => exact Or.inl (by simp [processRssEntry, h1, h2])
      | false =>
        by_cases h3 : ctx.hash (pyStrip e.link) ∈ seen
        · exact Or.inl (by simp [processRssEntry, h1, h2, h3])
        · exact Or.inr (by simp [processRssEntry, h1, h2, h3, h5])
  · intro ctx src e st added seen h5 h1 ht hl h3
    simp [processRssEntry, h1, ht, hl, h3, h5]

/-- C5 counterexample: an entry from an AI source that matches no keyword
disappears from the run entirely — `all_articles` stays empty, contradicting
"still added to the all-articles pool". -/
theorem C5_counterexample :
    isAiRelated (pyStrip entryNotAiCex.title) (rssCleanSummary ctxCex entryNotAiCex)
        = false ∧
    (fetch_rss ctxCex srcCex1 ("ai".data) [entryNotAiCex] emptyState).all_articles = [] ∧
    (fetch_rss ctxCex srcCex1 ("ai".data) [entryNotAiCex] emptyState).ai_articles = [] := by
  decide

/-- C5 witness: a concrete relevant entry is appended to both pools. -/
theorem C5_witness :
    processRssEntry ctxCex srcCex1 ("ai".data) entryAiCex (emptyState, 0, []) =
      ({ emptyState with
          all_articles := emptyState.all_articles ++
            [{ mkRssArticle ctxCex srcCex1 ("ai".data) entryAiCex with importance := 8 }],
          ai_articles := emptyState.ai_articles ++
            [{ mkRssArticle ctxCex srcCex1 ("ai".data) entryAiCex with importance := 8 }] },
       0 + 1, ctxCex.hash (pyStrip entryAiCex.link) :: []) :=
  C5_theorem.2.2 ctxCex srcCex1 entryAiCex emptyState 0 []
    (by decide) (by decide) (by decide) (by decide) (by decide)

/-- C6 (confirmed): on every translation failure mode `baidu_translate`
still returns a pair: the original title (and non-empty summary) with the
explicit `(未翻译)` marker appended, `"(未翻译)"` alone for an empty summary —
never the empty string. -/
theorem C6_theorem (o : BaiduOutcome) (title summary : Str) (h : o.isFailure = true) :
    (baidu_translate o title summary).1 = title ++ (" (未翻译)".data) ∧
    (baidu_translate o title summary).2 =
      (if summary.isEmpty then ("(未翻译)".data) else summary ++ (" (未翻译)".data)) ∧
    (baidu_translate o title summary).1 ≠ [] ∧
    (baidu_translate o title summary).2 ≠ [] := by
  cases o with
  | ok dst => simp [BaiduOutcome.isFailure] at h
  | noKeys =>
    refine ⟨rfl, rfl, append_marker_ne_nil title, ?_⟩
    show (if summary.isEmpty then (("(未翻译)".data) : Str)
          else summary ++ (" (未翻译)".data)) ≠ []
    by_cases hs : summary.isEmpty = true
    · rw [if_pos hs]; decide
    · rw [if_neg hs]; exact append_marker_ne_nil summary
  | apiError =>
    refine ⟨rfl, rfl, append_marker_ne_nil title, ?_⟩
    show (if summary.isEmpty then (("(未翻译)".data) : Str)
          else summary ++ (" (未翻译)".data)) ≠ []
    by_cases hs : summary.isEmpty = true
    · rw [if_pos hs]; decide
    · rw [if_neg hs]; exact append_marker_ne_nil summary
  | exn =>
    refine ⟨rfl, rfl, append_marker_ne_nil title, ?_⟩
    show (if summary.isEmpty then (("(未翻译)".data) : Str)
          else summary ++ (" (未翻译)".data)) ≠ []
    by_cases hs : summary.isEmpty = true
    · rw [if_pos hs]; decide
    · rw [if_neg hs]; exact append_marker_ne_nil summary

/-- C6 witness at a concrete failed translation. -/
theorem C6_witness :
    (baidu_translate BaiduOutcome.noKeys ("Hello".data) ("World".data)).1 =
      ("Hello".data) ++ (" (未翻译)".data) ∧
    (baidu_translate BaiduOutcome.noKeys ("Hello".data) ("World".data)).2 =
      (if ("World".data).isEmpty then ("(未翻译)".data)
       else ("World".data) ++ (" (未翻译)".data)) ∧
    (baidu_translate BaiduOutcome.noKeys ("Hello".data) ("World".data)).1 ≠ [] ∧
    (baidu_translate BaiduOutcome.noKeys ("Hello".data) ("World".data)).2 ≠ [] :=
  C6_theorem BaiduOutcome.noKeys ("Hello".data) ("World".data) rfl

/-- C7 (confirmed): both featured-article selectors are the head of a
stable descending sort, so the selected article attains the maximal score
and every earlier-fetched article has a strictly smaller score — the
function of the article list is deterministic with ties broken by fetch
order. -/
theorem C7_theorem (arts : List Article) (h : arts ≠ []) :
    (∃ i, ∃ hi : i < arts.length,
      select_featured_article arts = some (arts.get ⟨i, hi⟩) ∧
      (∀ b ∈ arts, featuredScore b ≤ featuredScore (arts.get ⟨i, hi⟩)) ∧
      ∀ b ∈ arts.take i, featuredScore b < featuredScore (arts.get ⟨i, hi⟩)) ∧
    (∃ j, ∃ hj : j < arts.length,
      select_featured_ai arts = some (arts.get ⟨j, hj⟩) ∧
      (∀ b ∈ arts, b.importance ≤ (arts.get ⟨j, hj⟩).importance) ∧
      ∀ b ∈ arts.take j, b.importance < (arts.get ⟨j, hj⟩).importance) ∧
    (∃ k, ∃ hk : k < arts.length,
      select_featured_fact arts = some (arts.get ⟨k, hk⟩) ∧
      (∀ b ∈ arts, factScore b ≤ factScore (arts.get ⟨k, hk⟩)) ∧
      ∀ b ∈ arts.take k, factScore b < factScore (arts.get ⟨k, hk⟩)) := by
  have hne : arts.isEmpty = false := by
    cases arts with
    | nil => exact absurd rfl h
    | cons a l => rfl
  refine ⟨?_, ?_, ?_⟩
  · obtain ⟨i, hi, hsel, hall, htake⟩ := select_pairs_spec featuredScore arts h
    refine ⟨i, hi, ?_, hall, htake⟩
    simp only [select_featured_article, hne, Bool.false_eq_true, if_false]
    exact hsel
  · obtain ⟨j, hj, hsel, hall, htake⟩ :=
      select_pairs_spec (fun a : Article => a.importance) arts h
    refine ⟨j, hj, ?_, hall, htake⟩
    simp only [select_featured_ai, hne, Bool.false_eq_true, if_false]
    exact hsel
  · obtain ⟨k, hk, hsel, hall, htake⟩ := select_direct_spec factScore arts h
    refine ⟨k, hk, ?_, hall, htake⟩
    simp only [select_featured_fact, hne, Bool.false_eq_true, if_false]
    exact hsel

/-- Articles with equal composite score used by the C7 witness. -/
def artW1 : Article := { artCex with source := "sA".data }

/-- Second equal-score article, fetched later. -/
def artW2 : Article := { artCex with source := "sB".data, title := "second".data }

/-- C7 witness on a concrete two-article pool with a score tie. -/
theorem C7_witness :
    (∃ i, ∃ hi : i < ([artW1, artW2] : List Article).length,
      select_featured_article [artW1, artW2] =
        some (([artW1, artW2] : List Article).get ⟨i, hi⟩) ∧
      (∀ b ∈ ([artW1, artW2] : List Article),
        featuredScore b ≤ featuredScore (([artW1, artW2] : List Article).get ⟨i, hi⟩)) ∧
      ∀ b ∈ ([artW1, artW2] : List Article).take i,
        featuredScore b < featuredScore (([artW1, artW2] : List Article).get ⟨i, hi⟩)) ∧
    (∃ j, ∃ hj : j < ([artW1, artW2] : List Article).length,
      select_featured_ai [artW1, artW2] =
        some (([artW1, artW2] : List Article).get ⟨j, hj⟩) ∧
      (∀ b ∈ ([artW1, artW2] : List Article),
        b.importance ≤ (([artW1, artW2] : List Article).get ⟨j, hj⟩).importance) ∧
      ∀ b ∈ ([artW1, artW2] : List Article).take j,
        b.importance < (([artW1, artW2] : List Article).get ⟨j, hj⟩).importance) ∧
    (∃ k, ∃ hk : k < ([artW1, artW2] : List Article).length,
      select_featured_fact [artW1, artW2] =
        some (([artW1, artW2] : List Article).get ⟨k, hk⟩) ∧
      (∀ b ∈ ([artW1, artW2] : List Article),
        factScore b ≤ factScore (([artW1, artW2] : List Article).get ⟨k, hk⟩)) ∧
      ∀ b ∈ ([artW1, artW2] : List Article).take k,
        factScore b < factScore (([artW1, artW2] : List Article).get ⟨k, hk⟩)) :=
  C7_theorem [artW1, artW2] (by decide)

/-- C8 (code_bug): the penalty for a synthesized publish time never reaches
the stored article.  The source assigns `article_importance = 4` (comment:
lower the importance of an unknown time) but never reads that local: at the
failing input — an entry with no parseable publish time — the accepted
article's stored importance is 6, exactly the same as with a parsed time,
and its time is the synthesized `datetime.now()`. -/
theorem C8_theorem :
    ((fetch_rss ctxCex srcCex1 ("fact".data) [entryNoTimeCex] emptyState).fact_articles.map
        Article.importance = [6]) ∧
    ((fetch_rss ctxCex srcCex1 ("fact".data) [entryParsedCex] emptyState).fact_articles.map
        Article.importance = [6]) ∧
    ((fetch_rss ctxCex srcCex1 ("fact".data) [entryNoTimeCex] emptyState).fact_articles.map
        Article.time = [ctxCex.now]) := by
  decide

/-- C9 (confirmed): every article the Hacker News fetcher accepts stores
importance `min(9, 6 + points // 20)`, which lies in `[6, 9]` and is
monotone in the points. -/
theorem C9_theorem :
    (∀ (ctx : Ctx) (src : Source) (atype : Str) (hits : List HnHit) (st : RunState),
      ∀ a ∈ (fetch_hackernews ctx src atype hits st).all_articles,
        a ∈ st.all_articles ∨
          ∃ hit ∈ hits, a.importance = min 9 (6 + hit.points.getD 0 / 20) ∧
            a.importance = hnImportance (hit.points.getD 0) ∧
            a.points = some (hit.points.getD 0)) ∧
    (∀ p : Nat, 6 ≤ hnImportance p ∧ hnImportance p ≤ 9) ∧
    (∀ p q : Nat, p ≤ q → hnImportance p ≤ hnImportance q) := by
  refine ⟨?_, ?_, ?_⟩
  · intro ctx src atype hits st a ha
    rcases fetchHnFold_all ctx src atype (hits.take 10) st [] a ha with h | ⟨hit, hmem, heq⟩
    · exact Or.inl h
    · exact Or.inr ⟨hit, List.take_subset _ _ hmem,
        by rw [heq]; rfl, by rw [heq]; rfl, by rw [heq]; rfl⟩
  · intro p
    exact ⟨le_min (by norm_num) (Nat.le_add_right 6 _), min_le_left _ _⟩
  · intro p q hpq
    exact min_le_min (le_refl 9) (Nat.add_le_add_left (Nat.div_le_div_right hpq) 6)

/-- C9 witness: monotonicity at concrete point counts. -/
theorem C9_witness : hnImportance 0 ≤ hnImportance 40 :=
  C9_theorem.2.2 0 40 (by decide)

/-- C10 (confirmed): on input detected as Chinese with `force_translate`
false, `translate_news_item` returns the original title and summary as
their own translations with the explanatory note, and the result does not
depend on the translation configuration or service — no request is made. -/
theorem C10_theorem (configured : Bool) (svc svc2 : Str → Option Str)
    (title summary : Str)
    (h : detect_language (title ++ summary) = ("zh".data)) :
    translate_news_item configured svc title summary false =
      { original_title := title, original_summary := summary,
        translated_title := title, translated_summary := summary,
        language := ("zh".data), note := some ("原文为中文，未翻译".data) } ∧
    translate_news_item configured svc title summary false =
      translate_news_item true svc2 title summary false := by
  have h1 : ∀ (c : Bool) (f : Str → Option Str),
      translate_news_item c f title summary false =
        { original_title := title, original_summary := summary,
          translated_title := title, translated_summary := summary,
          language := ("zh".data), note := some ("原文为中文，未翻译".data) } := by
    intro c f
    simp [translate_news_item, h]
  exact ⟨h1 configured svc, (h1 configured svc).trans (h1 true svc2).symm⟩

/-- C10 witness on concrete Chinese text and two different service stubs. -/
theorem C10_witness :
    translate_news_item false (fun _ => none) ("中文新闻".data) ("今日摘要".data) false =
      { original_title := ("中文新闻".data), original_summary := ("今日摘要".data),
        translated_title := ("中文新闻".data), translated_summary := ("今日摘要".data),
        language := ("zh".data), note := some ("原文为中文，未翻译".data) } ∧
    translate_news_item false (fun _ => none) ("中文新闻".data) ("今日摘要".data) false =
      translate_news_item true (fun s => some s) ("中文新闻".data) ("今日摘要".data) false :=
  C10_theorem false (fun _ => none) (fun s => some s) ("中文新闻".data) ("今日摘要".data)
    (by decide)

end NewsPipeline
